import Mathlib

/-!
Verification of the tag-normalization, cell-sanitization, task-scheduler and
profile-export orchestration logic of the aws-export-resources program
(src/aws_export_resources.py), shallowly embedded in Lean 4.

Conventions of the embedding:
* Python strings are Lean `String` / `List Char`.
* A raw AWS tag dictionary (which may lack the `Key` or `Value` field) is a
  `RawTag` with two `Option String` fields; `tag.get('Key', '')` becomes
  `tagKey`, `tag.get('Value', '')` becomes `tagVal`.
* The configured `COMMON_TAG_KEYS` list (imported from the external config
  module) is a parameter `keys : List String` of each function.
* A Python value that may be `None` is an `Option`; `str(value)` of a
  non-`None` value is taken as the `String` the option carries.
* Exception-raising steps of the profile exporter are `Except String`.
-/

/-- Raw tag dictionary as received from AWS: both fields may be absent. -/
structure RawTag where
  key : Option String
  value : Option String
deriving DecidableEq, Repr

/-- Python `tag.get('Key', '')`. -/
def tagKey (t : RawTag) : String := t.key.getD ""

/-- Python `tag.get('Value', '')`. -/
def tagVal (t : RawTag) : String := t.value.getD ""

/-- Python `str.lower()` (per-character lowercasing; tag keys are ASCII). -/
def strLower (s : String) : String := String.mk (s.data.map Char.toLower)

/-- The lowercase-field tag shape used by the ECS API: fields `key`/`value`,
each possibly absent. -/
structure RawTagLower where
  lkey : Option String
  lvalue : Option String
deriving DecidableEq, Repr

/-- Python dict build `tag_dict[key.lower()] = (key, value)` followed by
lookup: the last tag whose lowercased key equals `lk` wins. -/
def tagDictFind (tags : List RawTag) (lk : String) : Option (String × String) :=
  match tags.reverse.find? (fun t => strLower (tagKey t) == lk) with
  | some t => some (tagKey t, tagVal t)
  | none => none

/-- The `common_tags` dict of `extract_tags`, in configured key order:
for each configured common key, the case-insensitive lookup value, else
the sentinel. -/
def commonPairs (keys : List String) (tags : List RawTag) : List (String × String) :=
  keys.map fun ck =>
    match tagDictFind tags (strLower ck) with
    | some kv => (ck, kv.2)
    | none => (ck, "N/A")

/-- The additional-tags accumulation loop of `extract_tags`: skip a tag when
`not key or (not key and not value)` holds (Python truthiness: a string is
falsy exactly when empty), skip tags matching a common key case-insensitively,
render the rest as `key=value`. -/
def additionalList (keys : List String) (tags : List RawTag) : List String :=
  let commonLower := keys.map strLower
  (tags.filter fun t =>
      !(tagKey t == "" || (tagKey t == "" && tagVal t == "")) &&
      !(commonLower.contains (strLower (tagKey t)))).map
    fun t => tagKey t ++ "=" ++ tagVal t

/-- Python `', '.join(additional_tags) if additional_tags else 'N/A'`. -/
def additionalStr (keys : List String) (tags : List RawTag) : String :=
  let adds := additionalList keys tags
  if adds.isEmpty then "N/A" else String.intercalate ", " adds

/-- `extract_tags(aws_tags)`: the argument may be `None` or a list; Python
`if not aws_tags` short-circuits on both `None` and `[]`. Returns the
common-tags mapping (as an association list in configured key order) and the
additional-tags string. -/
def extract_tags (keys : List String) (aws_tags : Option (List RawTag)) :
    List (String × String) × String :=
  match aws_tags with
  | none => (keys.map fun k => (k, "N/A"), "N/A")
  | some tags =>
    if tags.isEmpty then (keys.map fun k => (k, "N/A"), "N/A")
    else (commonPairs keys tags, additionalStr keys tags)

/-- Association-list lookup modelling Python `common_tags[key]`; the default
is never reached because `extract_tags` populates every configured key. -/
def dictGet (m : List (String × String)) (k : String) : String :=
  match m.find? (fun e => e.1 == k) with
  | some e => e.2
  | none => ""

/-- Conversion applied at the Lambda / API Gateway call sites:
`[{'Key': k, 'Value': v} for k, v in d.items()]`, the dict given by its
item list. -/
def dictToStd (items : List (String × String)) : List RawTag :=
  items.map fun p => { key := some p.1, value := some p.2 }

/-- The standard-shape tag list carrying given logical key/value pairs. -/
def stdOfPairs (ps : List (String × String)) : List RawTag :=
  ps.map fun p => { key := some p.1, value := some p.2 }

/-- Conversion applied at the ECS call site:
`[{'Key': tag.get('key', ''), 'Value': tag.get('value', '')} for tag in raw]`. -/
def lowerToStd (ts : List RawTagLower) : List RawTag :=
  ts.map fun t => { key := some (t.lkey.getD ""), value := some (t.lvalue.getD "") }

/-- The logical key/value content of a lowercase-shape tag entry, as read
through `tag.get('key', '')` / `tag.get('value', '')`. -/
def lowerPairs (ts : List RawTagLower) : List (String × String) :=
  ts.map fun t => (t.lkey.getD "", t.lvalue.getD "")

/-- The logical key/value content of a standard-shape tag list, as read
through `tag.get('Key', '')` / `tag.get('Value', '')`. -/
def logicalPairs (ts : List RawTag) : List (String × String) :=
  ts.map fun t => (tagKey t, tagVal t)

/-! ## Cell sanitizer (`sanitize_excel_data`) -/

/-- The single-quote character prepended by the formula-injection defense. -/
def quoteChar : Char := Char.ofNat 39

/-- NUL character. -/
def nulChar : Char := Char.ofNat 0

/-- Carriage return. -/
def crChar : Char := Char.ofNat 13

/-- Line feed. -/
def lfChar : Char := Char.ofNat 10

/-- Horizontal tab. -/
def tabChar : Char := Char.ofNat 9

/-- Python `str_value.startswith(('=', '+', '-', '@'))`. -/
def isFormulaStart : List Char → Bool
  | [] => false
  | c :: _ => c == '=' || c == '+' || c == '-' || c == '@'

/-- Replacement step `str_value.replace('\r', ' ')` applied per character. -/
def replaceCR (c : Char) : Char := if c == crChar then ' ' else c

/-- Replacement step `str_value.replace('\n', ' ')` applied per character. -/
def replaceLF (c : Char) : Char := if c == lfChar then ' ' else c

/-- Truncation step: `if len > 32000: str_value = str_value[:32000] + '...'`. -/
def truncStep (l : List Char) : List Char :=
  if l.length > 32000 then l.take 32000 ++ ['.', '.', '.'] else l

/-- Membership in the character class removed by the final
`re.sub(r'[\x00-\x08\x0B\x0C\x0E-\x1F\x7F]', '', str_value)`. -/
def isExcelControl (c : Char) : Bool :=
  c.toNat ≤ 8 || c.toNat == 11 || c.toNat == 12 ||
  (14 ≤ c.toNat && c.toNat ≤ 31) || c.toNat == 127

/-- The character pipeline of `sanitize_excel_data` on the string form of a
non-`None` value, step for step in source order. -/
def sanitizeChars (cs : List Char) : List Char :=
  let s1 := if isFormulaStart cs then quoteChar :: cs else cs
  let s2 := s1.filter fun c => c != nulChar
  let s3 := s2.map replaceCR
  let s4 := s3.map replaceLF
  let s5 := truncStep s4
  s5.filter fun c => !(isExcelControl c)

/-- `sanitize_excel_data(value)`: `None` maps to the sentinel, any other
value is processed as its string form. -/
def sanitize_excel_data (v : Option String) : String :=
  match v with
  | none => "N/A"
  | some s => String.mk (sanitizeChars s.data)

/-! ## Tag column helpers -/

/-- `get_tag_columns()`: one header per configured common key plus the
additional-tags header. -/
def get_tag_columns (keys : List String) : List String :=
  (keys.map fun k => "Tag_" ++ k) ++ ["Additional_Tags"]

/-- `get_tag_values(aws_tags)`: sanitized common values in configured key
order followed by the sanitized additional-tags string. -/
def get_tag_values (keys : List String) (aws_tags : Option (List RawTag)) :
    List String :=
  let p := extract_tags keys aws_tags
  (keys.map fun k => sanitize_excel_data (some (dictGet p.1 k))) ++
    [sanitize_excel_data (some p.2)]

/-! ## Task scheduler (`export_with_error_handling` and the pool loop) -/

/-- Outcome tuple `(success, sheet_name, error_message)` returned by
`export_with_error_handling`. -/
structure TaskOutcome where
  success : Bool
  name : String
  errorMsg : Option String
deriving DecidableEq, Repr

/-- `export_with_error_handling(export_func, *args)`: run the task body,
catch any exception at the task boundary. -/
def export_with_error_handling (name : String) (run : Except String Unit) :
    TaskOutcome :=
  match run with
  | Except.ok _ => { success := true, name := name, errorMsg := none }
  | Except.error e => { success := false, name := name, errorMsg := some e }

/-- The scheduler: every submitted task produces exactly one outcome through
the error-handling wrapper; a task is a name together with the behaviour of
its body (normal return or raised exception). -/
def runAll (tasks : List (String × Except String Unit)) : List TaskOutcome :=
  tasks.map fun t => export_with_error_handling t.1 t.2

/-! ## Profile exporter (`export_aws_resources_for_profile`) -/

/-- Environment describing the behaviour of the external collaborators during
one profile export: whether the profile resolves, how the remote identity
calls behave, whether document setup (workbook, clients, sheets) raises, the
task bodies, and whether the final save raises. -/
structure ProfileEnv where
  profileFound : Bool
  stsIdentity : Except String String
  iamAliases : Except String (List String)
  docSetup : Except String Unit
  tasks : List (String × Except String Unit)
  saveDoc : Except String Unit

/-- `get_account_info(session)`: the outer `try` covers both remote calls and
on any exception returns the `'unknown'` pair; the inner `try` covers only
the alias listing and falls back to `account-<id>`. -/
def get_account_info (env : ProfileEnv) : String × String :=
  match env.stsIdentity with
  | Except.error _ => ("unknown", "unknown")
  | Except.ok acct =>
    match env.iamAliases with
    | Except.error _ => (acct, "account-" ++ acct)
    | Except.ok als =>
      match als with
      | [] => (acct, "account-" ++ acct)
      | a :: _ => (acct, a)

/-- `export_aws_resources_for_profile(profile_name)`: profile-not-found is
caught and returns `false`; `get_account_info` never raises; any exception
in document setup or in the final save returns `false`; task outcomes are
collected and logged but never change the return value; otherwise `true`. -/
def export_aws_resources_for_profile (env : ProfileEnv) : Bool :=
  if !env.profileFound then false
  else
    match env.docSetup with
    | Except.error _ => false
    | Except.ok _ =>
      let _acct := get_account_info env
      let _outcomes := runAll env.tasks
      match env.saveDoc with
      | Except.error _ => false
      | Except.ok _ => true

/-- Helper for stating the common-tags contract: the value `extract_tags`
assigns to a configured key, as a function of the tag input alone. -/
def commonValue (tags : Option (List RawTag)) (k : String) : String :=
  match tags with
  | none => "N/A"
  | some ts =>
    if ts.isEmpty then "N/A"
    else
      match tagDictFind ts (strLower k) with
      | some kv => kv.2
      | none => "N/A"

/-! ## Theorems -/

/-- The first component of extract_tags is always the configured key list
paired with the per-key lookup value. -/
theorem extract_tags_fst (keys : List String) (tags : Option (List RawTag)) :
    (extract_tags keys tags).1 = keys.map fun k => (k, commonValue tags k) := by
  cases tags with
  | none => rfl
  | some ts =>
    by_cases hemp : ts.isEmpty
    · simp [extract_tags, commonValue, hemp]
    · simp only [extract_tags, commonValue, hemp, commonPairs, if_false,
        Bool.false_eq_true]
      apply List.map_congr_left
      intro a _
      cases tagDictFind ts (strLower a) <;> rfl

/-- Association-list lookup over a key-indexed map recovers the indexed
value at every present key. -/
theorem dictGet_map (f : String → String) (keys : List String) (k : String)
    (hk : k ∈ keys) : dictGet (keys.map fun x => (x, f x)) k = f k := by
  induction keys with
  | nil => cases hk
  | cons a as ih =>
    by_cases hak : (a == k) = true
    · have ha : a = k := by simpa using hak
      unfold dictGet
      rw [List.map_cons, List.find?_cons_of_pos _ (by simpa using hak)]
      rw [ha]
    · have hk' : k ∈ as := by
        cases hk with
        | head => exact absurd (by simp) hak
        | tail _ h => exact h
      have htail := ih hk'
      unfold dictGet
      rw [List.map_cons, List.find?_cons_of_neg _ (by simpa using hak)]
      unfold dictGet at htail
      exact htail

/-- C6: extract_tags applied to an absent (`None`) or empty tag collection
short-circuits: every configured common tag is mapped to "N/A" and the
additional-tags string is "N/A". -/
theorem extract_tags_empty_short_circuit (keys : List String) :
    extract_tags keys none = (keys.map fun k => (k, "N/A"), "N/A") ∧
    extract_tags keys (some []) = (keys.map fun k => (k, "N/A"), "N/A") := by
  constructor
  · rfl
  · rfl

/-- Witness for C6 at a concrete configured key list. -/
theorem extract_tags_empty_short_circuit_witness :
    extract_tags ["Name", "Environment"] none =
      ([("Name", "N/A"), ("Environment", "N/A")], "N/A") := by
  have h := extract_tags_empty_short_circuit ["Name", "Environment"]
  simpa using h.1

/-- C5: tag-shape normalization is semantics-preserving: converting the dict
form or the lowercase-field list form to the standard shape and then running
extract_tags gives the same CommonTagSet and AdditionalTagsString as running
extract_tags on the standard list with the same logical key/value content. -/
theorem extract_tags_shape_invariance (keys : List String)
    (items : List (String × String)) (lts : List RawTagLower) :
    extract_tags keys (some (dictToStd items)) =
      extract_tags keys (some (stdOfPairs items)) ∧
    extract_tags keys (some (lowerToStd lts)) =
      extract_tags keys (some (stdOfPairs (lowerPairs lts))) := by
  constructor
  · rfl
  · have h : lowerToStd lts = stdOfPairs (lowerPairs lts) := by
      simp [lowerToStd, stdOfPairs, lowerPairs]
    rw [h]

/-- C3: extract_tags silently drops tag pairs whose key is missing or empty;
with "Normal" not among the configured common tag names, the additional-tags
string for the given malformed input is exactly "Normal=v". -/
theorem extract_tags_drops_malformed (keys : List String)
    (h : ((keys.map strLower).contains "normal") = false) :
    (extract_tags keys (some
      [{ key := none, value := some "orphan" },
       { key := some "", value := some "x" },
       { key := some "Normal", value := some "v" }])).2 = "Normal=v" := by
  have hlow : strLower "Normal" = "normal" := rfl
  have hn : "normal" ∉ keys.map strLower := by
    intro hmem
    have hc : (keys.map strLower).contains "normal" = true := by
      rw [List.contains_eq_any_beq, List.any_eq_true]
      exact ⟨"normal", hmem, by simp⟩
    rw [hc] at h
    exact Bool.noConfusion h
  have hn' : ¬ ∃ x ∈ keys, strLower x = "normal" := by simpa using hn
  simp [extract_tags, additionalStr, additionalList, tagKey, tagVal, hlow, hn']
  decide

/-- Witness for C3 at the example configured key list. -/
theorem extract_tags_drops_malformed_witness :
    (extract_tags ["Name", "Environment"] (some
      [{ key := none, value := some "orphan" },
       { key := some "", value := some "x" },
       { key := some "Normal", value := some "v" }])).2 = "Normal=v" :=
  extract_tags_drops_malformed ["Name", "Environment"] (by decide)

/-- C4: extract_tags matches configured common-tag names case-insensitively,
preserving the incoming value (concrete part), and any configured common tag
with no case-insensitive match among the incoming keys is set to "N/A"
(general part). -/
theorem extract_tags_case_insensitive :
    (extract_tags ["Name", "Environment"] (some
      [{ key := some "name", value := some "a" },
       { key := some "ENVIRONMENT", value := some "b" }])).1 =
      [("Name", "a"), ("Environment", "b")] ∧
    ∀ (keys : List String) (tags : List RawTag) (k : String), k ∈ keys →
      (∀ t ∈ tags, (strLower (tagKey t) == strLower k) = false) →
      (k, "N/A") ∈ (extract_tags keys (some tags)).1 := by
  constructor
  · decide
  · intro keys tags k hk hnone
    by_cases hemp : tags.isEmpty
    · show (k, "N/A") ∈ (if tags.isEmpty then (keys.map fun k => (k, "N/A"), "N/A")
        else (commonPairs keys tags, additionalStr keys tags)).1
      rw [if_pos hemp]
      exact List.mem_map_of_mem (fun k => (k, "N/A")) hk
    · have hfind : tagDictFind tags (strLower k) = none := by
        unfold tagDictFind
        have hf : tags.reverse.find? (fun t => strLower (tagKey t) == strLower k) = none := by
          rw [List.find?_eq_none]
          intro t ht
          have := hnone t (List.mem_reverse.mp ht)
          simp [this]
        rw [hf]
      show (k, "N/A") ∈ (if tags.isEmpty then (keys.map fun k => (k, "N/A"), "N/A")
        else (commonPairs keys tags, additionalStr keys tags)).1
      rw [if_neg (by simpa using hemp)]
      have hmem := List.mem_map_of_mem
        (fun ck => match tagDictFind tags (strLower ck) with
          | some kv => (ck, kv.2)
          | none => (ck, "N/A")) hk
      unfold commonPairs
      simpa [hfind] using hmem

/-- Witness for C4: the general part applied to a concrete configuration and
tag list with no case-insensitive match for "Name". -/
theorem extract_tags_case_insensitive_witness :
    ("Name", "N/A") ∈
      (extract_tags ["Name"] (some [{ key := some "Other", value := some "x" }])).1 :=
  extract_tags_case_insensitive.2 ["Name"]
    [{ key := some "Other", value := some "x" }] "Name"
    (by decide) (by decide)

/-- C10: the tag-columns join contract: for every tag input, get_tag_values
returns exactly one entry per configured common-tag name plus one — the same
length as get_tag_columns — consisting of the sanitized common-tag values in
configured order followed by the sanitized additional-tags string. -/
theorem tag_columns_join_contract (keys : List String)
    (tags : Option (List RawTag)) :
    (get_tag_values keys tags).length = (get_tag_columns keys).length ∧
    get_tag_values keys tags =
      ((extract_tags keys tags).1.map fun e => sanitize_excel_data (some e.2)) ++
        [sanitize_excel_data (some (extract_tags keys tags).2)] := by
  constructor
  · simp [get_tag_values, get_tag_columns]
  · show (keys.map fun k =>
        sanitize_excel_data (some (dictGet (extract_tags keys tags).1 k))) ++
        [sanitize_excel_data (some (extract_tags keys tags).2)] = _
    congr 1
    rw [extract_tags_fst, List.map_map]
    apply List.map_congr_left
    intro k hk
    simp only [Function.comp]
    rw [dictGet_map (commonValue tags) keys k hk]

/-- C1: scheduler isolation: for every task list, runAll returns exactly one
outcome per task, in submission position, carrying the task name; a raising
task is marked failed with its error description, a normally returning task
is marked successful; no exception escapes the task boundary. -/
theorem scheduler_isolation (tasks : List (String × Except String Unit)) :
    (runAll tasks).length = tasks.length ∧
    ∀ (i : ℕ) (name : String) (run : Except String Unit),
      tasks[i]? = some (name, run) →
      ∃ o : TaskOutcome, (runAll tasks)[i]? = some o ∧ o.name = name ∧
        (∀ e, run = Except.error e → o.success = false ∧ o.errorMsg = some e) ∧
        (run = Except.ok () → o.success = true ∧ o.errorMsg = none) := by
  constructor
  · simp [runAll]
  · intro i name run hi
    refine ⟨export_with_error_handling name run, ?_, ?_, ?_, ?_⟩
    · rw [runAll, List.getElem?_map, hi]
      rfl
    · cases run <;> rfl
    · intro e he
      subst he
      exact ⟨rfl, rfl⟩
    · intro he
      subst he
      exact ⟨rfl, rfl⟩

/-- Witness for C1: a two-task list where the second task raises. -/
theorem scheduler_isolation_witness :
    ∃ o : TaskOutcome,
      (runAll [("export_ec2_instances", Except.ok ()),
               ("export_rds_instances", Except.error "boom")])[1]? = some o ∧
      o.name = "export_rds_instances" ∧
      (∀ e, (Except.error "boom" : Except String Unit) = Except.error e →
        o.success = false ∧ o.errorMsg = some e) ∧
      ((Except.error "boom" : Except String Unit) = Except.ok () →
        o.success = true ∧ o.errorMsg = none) :=
  (scheduler_isolation [("export_ec2_instances", Except.ok ()),
      ("export_rds_instances", Except.error "boom")]).2
    1 "export_rds_instances" (Except.error "boom") rfl

/-- C2 counterexample: when the remote identity-resolution call fails
entirely (sts raises), get_account_info swallows the exception and returns
the unknown pair, and the profile export still returns true — the claim that
it returns false in this case is refuted. -/
theorem export_profile_identity_failure_counterexample :
    get_account_info
      { profileFound := true, stsIdentity := Except.error "sts unreachable",
        iamAliases := Except.error "iam unreachable", docSetup := Except.ok (),
        tasks := [("export_ec2_instances", Except.ok ())],
        saveDoc := Except.ok () } = ("unknown", "unknown") ∧
    export_aws_resources_for_profile
      { profileFound := true, stsIdentity := Except.error "sts unreachable",
        iamAliases := Except.error "iam unreachable", docSetup := Except.ok (),
        tasks := [("export_ec2_instances", Except.ok ())],
        saveDoc := Except.ok () } = true :=
  ⟨rfl, rfl⟩

/-- C2 amended: the profile export returns true exactly when the profile is
found and both document setup and document save succeed; the result is
independent of the identity-resolution outcome and of individual task
failures (neither appears in the condition). -/
theorem export_profile_return_contract (env : ProfileEnv) :
    export_aws_resources_for_profile env = true ↔
      (env.profileFound = true ∧ env.docSetup = Except.ok () ∧
        env.saveDoc = Except.ok ()) := by
  unfold export_aws_resources_for_profile
  cases hp : env.profileFound <;>
    cases hd : env.docSetup <;>
    cases hs : env.saveDoc <;>
    simp [hp, hd, hs]

/-! ## Sanitizer lemmas -/

/-- The sanitizer pipeline written as one composed expression. -/
theorem sanitizeChars_eq (cs : List Char) :
    sanitizeChars cs =
      (truncStep ((((if isFormulaStart cs then quoteChar :: cs else cs).filter
        fun c => c != nulChar).map replaceCR).map replaceLF)).filter
        fun c => !(isExcelControl c) := rfl

/-- Mapping a function that fixes every element of a list is the identity. -/
theorem list_map_self {α : Type} {f : α → α} {l : List α}
    (h : ∀ a ∈ l, f a = a) : l.map f = l := by
  have hc := List.map_congr_left (g := fun a => a) h
  simpa using hc

/-- The CR-replacement never yields CR. -/
theorem replaceCR_ne_cr (a : Char) : replaceCR a ≠ crChar := by
  unfold replaceCR
  split
  · decide
  · next h => exact fun he => h (by simp [he])

/-- The LF-replacement never yields LF. -/
theorem replaceLF_ne_lf (a : Char) : replaceLF a ≠ lfChar := by
  unfold replaceLF
  split
  · decide
  · next h => exact fun he => h (by simp [he])

/-- The LF-replacement preserves being distinct from CR. -/
theorem replaceLF_ne_cr (a : Char) (h : a ≠ crChar) : replaceLF a ≠ crChar := by
  unfold replaceLF
  split
  · decide
  · exact h

/-- The CR-replacement fixes any character other than CR. -/
theorem replaceCR_eq_self (a : Char) (h : a ≠ crChar) : replaceCR a = a := by
  unfold replaceCR
  rw [if_neg (by simpa using h)]

/-- The LF-replacement fixes any character other than LF. -/
theorem replaceLF_eq_self (a : Char) (h : a ≠ lfChar) : replaceLF a = a := by
  unfold replaceLF
  rw [if_neg (by simpa using h)]

/-- The CR-replacement preserves being outside the stripped control class. -/
theorem replaceCR_control (a : Char) (h : isExcelControl a = false) :
    isExcelControl (replaceCR a) = false := by
  unfold replaceCR
  split
  · decide
  · exact h

/-- The LF-replacement preserves being outside the stripped control class. -/
theorem replaceLF_control (a : Char) (h : isExcelControl a = false) :
    isExcelControl (replaceLF a) = false := by
  unfold replaceLF
  split
  · decide
  · exact h

/-- Every character of the truncation output comes from the input or is the
ellipsis dot. -/
theorem mem_truncStep {c : Char} {l : List Char} (h : c ∈ truncStep l) :
    c ∈ l ∨ c = '.' := by
  unfold truncStep at h
  split at h
  · rcases List.mem_append.mp h with h1 | h1
    · exact Or.inl (List.take_subset _ _ h1)
    · right
      simpa using h1
  · exact Or.inl h

/-- The truncation step never yields more than 32003 characters. -/
theorem truncStep_length_le (l : List Char) : (truncStep l).length ≤ 32003 := by
  unfold truncStep
  split
  · next h =>
    simp only [List.length_append, List.length_take, List.length_cons,
      List.length_nil]
    omega
  · next h => omega

/-- C9 counterexample: the control-stripping class excludes horizontal tab
(0x09): a tab passes through the sanitizer unchanged, so the output can
contain a non-printable ASCII character below 0x20 that is neither CR, LF
nor NUL — refuting the claim that all such characters are removed. -/
theorem sanitize_tab_counterexample :
    sanitize_excel_data (some (String.mk [tabChar])) = String.mk [tabChar] ∧
    tabChar.toNat < 32 ∧ tabChar ≠ crChar ∧ tabChar ≠ lfChar ∧
    tabChar ≠ nulChar := by
  refine ⟨?_, by decide, by decide, by decide, by decide⟩
  decide

/-- C9 amended: the sanitizer is total by construction, maps None to "N/A",
and its output never contains NUL, CR, LF, or any character of the stripped
control class (0x00-0x08, 0x0B, 0x0C, 0x0E-0x1F, 0x7F); horizontal tab is
outside that class and may remain. -/
theorem sanitize_total_no_control :
    sanitize_excel_data none = "N/A" ∧
    ∀ (v : Option String) (c : Char), c ∈ (sanitize_excel_data v).data →
      isExcelControl c = false ∧ c ≠ nulChar ∧ c ≠ crChar ∧ c ≠ lfChar := by
  refine ⟨rfl, ?_⟩
  intro v c hc
  cases v with
  | none =>
    have hdata : (sanitize_excel_data none).data = ['N', '/', 'A'] := rfl
    rw [hdata] at hc
    have h3 : c = 'N' ∨ c = '/' ∨ c = 'A' := by simpa using hc
    rcases h3 with h | h | h <;> subst h <;>
      exact ⟨by decide, by decide, by decide, by decide⟩
  | some s =>
    have hc' : c ∈ sanitizeChars s.data := hc
    rw [sanitizeChars_eq] at hc'
    obtain ⟨h5, hctrl⟩ := List.mem_filter.mp hc'
    have hcontrol : isExcelControl c = false := by simpa using hctrl
    have hnul : c ≠ nulChar := by
      intro h
      subst h
      exact absurd hcontrol (by decide)
    rcases mem_truncStep h5 with h4 | hdot
    · refine ⟨hcontrol, hnul, ?_, ?_⟩
      · obtain ⟨a2, ha2, hae⟩ := List.mem_map.mp h4
        subst hae
        obtain ⟨b2, hb2, hbe⟩ := List.mem_map.mp ha2
        subst hbe
        exact replaceLF_ne_cr _ (replaceCR_ne_cr b2)
      · obtain ⟨a2, ha2, hae⟩ := List.mem_map.mp h4
        subst hae
        exact replaceLF_ne_lf a2
    · subst hdot
      exact ⟨hcontrol, hnul, by decide, by decide⟩

/-- Witness for C9 at a concrete input. -/
theorem sanitize_total_no_control_witness :
    isExcelControl 'a' = false ∧ 'a' ≠ nulChar ∧ 'a' ≠ crChar ∧ 'a' ≠ lfChar :=
  sanitize_total_no_control.2 (some "ab") 'a' (by decide)

/-- When the input starts with a formula character, the sanitizer output
starts with the quote character, whatever else the pipeline does. -/
theorem sanitizeChars_head (cs : List Char) (hf : isFormulaStart cs = true) :
    ∃ t, sanitizeChars cs = quoteChar :: t := by
  rw [sanitizeChars_eq, if_pos hf]
  rw [List.filter_cons_of_pos (by decide)]
  rw [List.map_cons, List.map_cons]
  rw [show replaceLF (replaceCR quoteChar) = quoteChar from by decide]
  unfold truncStep
  split
  · rw [show (32000 : ℕ) = 31999 + 1 from rfl, List.take_succ_cons,
      List.cons_append, List.filter_cons_of_pos (by decide)]
    exact ⟨_, rfl⟩
  · rw [List.filter_cons_of_pos (by decide)]
    exact ⟨_, rfl⟩

/-- On a clean short input (no stripped control characters, no CR or LF, at
most 31999 characters) that starts with a formula character, the sanitizer
exactly prepends the quote character. -/
theorem sanitizeChars_clean (cs : List Char)
    (hclean : ∀ c ∈ cs, isExcelControl c = false ∧ c ≠ crChar ∧ c ≠ lfChar)
    (hlen : cs.length ≤ 31999) (hf : isFormulaStart cs = true) :
    sanitizeChars cs = quoteChar :: cs := by
  rw [sanitizeChars_eq, if_pos hf]
  have h2 : (quoteChar :: cs).filter (fun c => c != nulChar) = quoteChar :: cs := by
    apply List.filter_eq_self.mpr
    intro a ha
    cases ha with
    | head => decide
    | tail _ h =>
      have hctl := (hclean a h).1
      simp only [bne_iff_ne, ne_eq]
      intro he
      subst he
      exact absurd hctl (by decide)
  rw [h2]
  have h3 : (quoteChar :: cs).map replaceCR = quoteChar :: cs := by
    apply list_map_self
    intro a ha
    cases ha with
    | head => decide
    | tail _ h => exact replaceCR_eq_self a (hclean a h).2.1
  rw [h3]
  have h4 : (quoteChar :: cs).map replaceLF = quoteChar :: cs := by
    apply list_map_self
    intro a ha
    cases ha with
    | head => decide
    | tail _ h => exact replaceLF_eq_self a (hclean a h).2.2
  rw [h4]
  have h5 : truncStep (quoteChar :: cs) = quoteChar :: cs := by
    unfold truncStep
    rw [if_neg]
    simp only [List.length_cons, gt_iff_lt, not_lt]
    omega
  rw [h5]
  apply List.filter_eq_self.mpr
  intro a ha
  cases ha with
  | head => decide
  | tail _ h => simp [(hclean a h).1]

/-- C7 counterexample: for the input "=a\n" (which starts with a formula
character), the output is not the quote followed by the original content:
the embedded LF is turned into a space after the quote is prepended. -/
theorem sanitize_formula_counterexample :
    isFormulaStart ("=a\n").data = true ∧
    sanitize_excel_data (some "=a\n") ≠ String.mk (quoteChar :: ("=a\n").data) ∧
    sanitize_excel_data (some "=a\n") = String.mk [quoteChar, '=', 'a', ' '] := by
  refine ⟨by decide, by decide, by decide⟩

/-- C7 amended: for every input whose string form starts with a formula
character, the output starts with the quote escape character; and the
remainder equals the original content exactly when that content carries no
stripped control character, no CR, no LF, and at most 31999 characters (so
that the truncation threshold is not reached after prepending). -/
theorem sanitize_formula_escape (s : String) (hf : isFormulaStart s.data = true) :
    (sanitize_excel_data (some s)).data.head? = some quoteChar ∧
    ((∀ c ∈ s.data, isExcelControl c = false ∧ c ≠ crChar ∧ c ≠ lfChar) →
      s.data.length ≤ 31999 →
      sanitize_excel_data (some s) = String.mk (quoteChar :: s.data)) := by
  constructor
  · obtain ⟨t, ht⟩ := sanitizeChars_head s.data hf
    show (sanitizeChars s.data).head? = some quoteChar
    rw [ht]
    rfl
  · intro hclean hlen
    show String.mk (sanitizeChars s.data) = String.mk (quoteChar :: s.data)
    rw [sanitizeChars_clean s.data hclean hlen hf]

/-- Witness for C7 at the concrete input "=sum". -/
theorem sanitize_formula_escape_witness :
    (sanitize_excel_data (some "=sum")).data.head? = some quoteChar ∧
    ((∀ c ∈ ("=sum").data, isExcelControl c = false ∧ c ≠ crChar ∧ c ≠ lfChar) →
      ("=sum").data.length ≤ 31999 →
      sanitize_excel_data (some "=sum") = String.mk (quoteChar :: ("=sum").data)) :=
  sanitize_formula_escape "=sum" (by decide)

/-- On a control-free list longer than the truncation threshold, the pipeline
after the formula-prefix step produces exactly 32003 characters. -/
theorem sanitizeTail_length (l : List Char)
    (hclean : ∀ c ∈ l, isExcelControl c = false)
    (hbig : l.length > 32000) :
    ((truncStep (((l.filter fun c => c != nulChar).map replaceCR).map
      replaceLF)).filter fun c => !(isExcelControl c)).length = 32003 := by
  have hnonul : l.filter (fun c => c != nulChar) = l := by
    apply List.filter_eq_self.mpr
    intro a ha
    simp only [bne_iff_ne, ne_eq]
    intro he
    subst he
    exact absurd (hclean _ ha) (by decide)
  rw [hnonul]
  have hlenm : ((l.map replaceCR).map replaceLF).length = l.length := by simp
  have hcleanm : ∀ c ∈ (l.map replaceCR).map replaceLF,
      isExcelControl c = false := by
    intro c hc
    obtain ⟨a, ha, hae⟩ := List.mem_map.mp hc
    obtain ⟨b, hb, hbe⟩ := List.mem_map.mp ha
    subst hae
    subst hbe
    exact replaceLF_control _ (replaceCR_control _ (hclean b hb))
  have htr : truncStep ((l.map replaceCR).map replaceLF) =
      ((l.map replaceCR).map replaceLF).take 32000 ++ ['.', '.', '.'] := by
    unfold truncStep
    rw [if_pos (by omega)]
  rw [htr]
  have hcleantr : ∀ c ∈ ((l.map replaceCR).map replaceLF).take 32000 ++
      ['.', '.', '.'], isExcelControl c = false := by
    intro c hc
    rcases List.mem_append.mp hc with h1 | h1
    · exact hcleanm c (List.take_subset _ _ h1)
    · have hd : c = '.' := by simpa using h1
      subst hd
      decide
  rw [List.filter_eq_self.mpr (by
    intro a ha
    rw [hcleantr a ha]
    rfl)]
  simp only [List.length_append, List.length_take, List.length_cons,
    List.length_nil]
  omega

/-- C8 counterexample: a 40000-character string consisting of NUL characters
sanitizes to the empty string (length 0), not to the 32003-character capped
form — the per-40000-character claim fails on inputs containing stripped
characters. -/
theorem sanitize_length_cap_counterexample :
    (sanitize_excel_data (some (String.mk (List.replicate 40000 nulChar)))).length = 0 ∧
    (sanitize_excel_data (some (String.mk (List.replicate 40000 nulChar)))).length ≠ 32003 := by
  have hform : isFormulaStart (List.replicate 40000 nulChar) = false := by
    rw [show (40000 : ℕ) = 39999 + 1 from rfl, List.replicate_succ]
    decide
  have hfil : (List.replicate 40000 nulChar).filter (fun c => c != nulChar) = [] := by
    apply List.filter_eq_nil_iff.mpr
    intro a ha
    rw [List.eq_of_mem_replicate ha]
    decide
  have hchain : sanitizeChars (List.replicate 40000 nulChar) = [] := by
    rw [sanitizeChars_eq, if_neg (by rw [hform]; decide), hfil]
    rfl
  constructor
  · show (sanitizeChars (List.replicate 40000 nulChar)).length = 0
    rw [hchain]
    rfl
  · show (sanitizeChars (List.replicate 40000 nulChar)).length ≠ 32003
    rw [hchain]
    decide

/-- C8 amended: every 40000-character input containing no characters of the
stripped control class sanitizes to exactly 32000 + 3 characters (the
configured cap plus the ellipsis marker), and no input of any kind ever
produces more than 32003 characters. -/
theorem sanitize_length_cap :
    (∀ s : String, s.data.length = 40000 →
      (∀ c ∈ s.data, isExcelControl c = false) →
      (sanitize_excel_data (some s)).length = 32003) ∧
    (∀ v : Option String, (sanitize_excel_data v).length ≤ 32003) := by
  constructor
  · intro s hlen hclean
    show (sanitizeChars s.data).length = 32003
    rw [sanitizeChars_eq]
    by_cases hf : isFormulaStart s.data = true
    · rw [if_pos hf]
      apply sanitizeTail_length
      · intro c hc
        cases hc with
        | head => decide
        | tail _ h => exact hclean c h
      · simp only [List.length_cons]
        omega
    · rw [if_neg hf]
      exact sanitizeTail_length s.data hclean (by omega)
  · intro v
    cases v with
    | none => decide
    | some s =>
      show (sanitizeChars s.data).length ≤ 32003
      rw [sanitizeChars_eq]
      exact le_trans (List.length_filter_le _ _) (truncStep_length_le _)

/-- Witness for C8 at the 40000-character all-letter input. -/
theorem sanitize_length_cap_witness :
    (sanitize_excel_data (some (String.mk (List.replicate 40000 'a')))).length = 32003 :=
  sanitize_length_cap.1 (String.mk (List.replicate 40000 'a'))
    (List.length_replicate 40000 'a')
    (by
      intro c hc
      rw [List.eq_of_mem_replicate hc]
      rfl)
